import Mathlib

/-!
# Verification of the Elixir task-registration layer

Shallow embedding of `src/src/tasks/task.js`: the `Task` class, its
lifecycle methods (constructor, `describe`, `register`, `watch`, `ignore`,
`run`, `log`), its pipeline-step helpers (`writeSourceMaps`, `autoPrefix`,
`minify`), the `summary`/`recordStep` pair, and the gulp bridge (`toGulp`,
`shouldRunAllTasksWithName`).

JavaScript mutation of `this` is embedded as explicit state passing: a
method that mutates the task returns the updated task; reads are pure
functions.  External side effects (invoking the deferred definition,
logging) are recorded in an explicit event trace.  External collaborators
(the gulp plugin objects, the definition closure's result) are type
parameters `π` (plugins) and `ρ` (definition result).  Optional JS string
arguments (`undefined` / `null` / a string) are `Option String`, with JS
truthiness: `undefined`, `null` and the empty string are falsy.
-/

set_option autoImplicit false

namespace Elixir

/-- An output path descriptor (`paths.output`): directory plus file name,
as consumed by `concat` (`this.output.name`) and `saveAs`
(`this.output.baseDir`). -/
structure Output where
  name : String
  baseDir : String
deriving Repr, DecidableEq

/-- A `GulpPaths` pair as received by the `Task` constructor. -/
structure Paths where
  src : String
  output : Output
deriving Repr, DecidableEq

/-- The slice of the process-wide `Elixir.config` object that `task.js`
reads: `config.sourcemaps`, `config.css.autoprefix.enabled` and
`config.css.autoprefix.options` (the nested `css.autoprefix` object is
flattened here into two fields; `options` is kept abstract as a string). -/
structure Config where
  sourcemaps : Bool
  cssAutoprefixEnabled : Bool
  cssAutoprefixOptions : String
deriving Repr, DecidableEq

/-- The process-wide `Elixir` globals read by `task.js`, apart from the
task registry: `Elixir.Plugins` (abstract, type `π`), `Elixir.config`,
`Elixir.inProduction`, `Elixir.isRunningAllTasks`, and the command-line
task arguments `gutils.env._`. -/
structure Env (π : Type) where
  plugins : π
  config : Config
  inProduction : Bool
  isRunningAllTasks : Bool
  cliArgs : List String

/-- JS truthiness of an optional string argument: `undefined`/`null`
(`none`) and the empty string are falsy. -/
def jsTruthy : Option String → Bool
  | none => false
  | some s => s != ""

/-- Externally visible events emitted while a task runs: the deferred
definition being invoked (with the arguments it was passed), and the two
branches of `log` (`Elixir.log.status(message)` and
`Elixir.log.task(this)`, the latter carrying the task's name and step
summary). -/
inductive Event (π : Type) where
  | defInvoked (plugins : π) (config : Config)
  | logStatus (message : String)
  | logTask (name : String) (stepSummary : String)

/-- The `Task` class state.  `category`, `paths`, `src`, `output` and
`definition` are `undefined` (`none`) until assigned.  `definition` is the
deferred closure `(Plugins, config) => result`. -/
structure Task (π ρ : Type) where
  name : String
  watchers : List String
  isComplete : Bool
  steps : List String
  category : Option String
  paths : Option Paths
  src : Option String
  output : Option Output
  definition : Option (π → Config → ρ)

namespace Task

variable {π ρ : Type}

/-- `register()`: push `this` onto `Elixir.tasks` and return `this`. -/
def register (t : Task π ρ) (tasks : List (Task π ρ)) :
    Task π ρ × List (Task π ρ) :=
  (t, tasks ++ [t])

/-- `describe(definition)`: store the definition, then `register()`. -/
def describe (t : Task π ρ) (d : π → Config → ρ) (tasks : List (Task π ρ)) :
    Task π ρ × List (Task π ρ) :=
  register { t with definition := some d } tasks

/-- The `Task` constructor.  Initializes the fields, copies `paths.src` /
`paths.output` when a paths object is given, and — since the base class
declares no `gulpTask` method — calls `describe(description)` exactly when
a description function is supplied.  Returns the new task, the updated
`Elixir.tasks` registry, and the (empty) trace of external events emitted
during construction: the constructor never calls the definition. -/
def mkTask (name : String) (description : Option (π → Config → ρ))
    (paths : Option Paths) (tasks : List (Task π ρ)) :
    Task π ρ × List (Task π ρ) × List (Event π) :=
  let base : Task π ρ :=
    { name := name
      watchers := []
      isComplete := false
      steps := []
      category := none
      paths := paths
      src := paths.map Paths.src
      output := paths.map Paths.output
      definition := none }
  match description with
  | some d => ((describe base d tasks).1, (describe base d tasks).2, [])
  | none => (base, tasks, [])

/-- `watch(regex, category)`: concat the regex onto `watchers` when it is
truthy, and set `this.category = category || 'default'`. -/
def watch (t : Task π ρ) (regex category : Option String) : Task π ρ :=
  let t1 :=
    if jsTruthy regex then { t with watchers := t.watchers ++ [regex.getD ""] }
    else t
  { t1 with
      category := some (if jsTruthy category then category.getD "" else "default") }

/-- `hasWatchers()`: `this.watchers.length > 0`. -/
def hasWatchers (t : Task π ρ) : Bool :=
  decide (t.watchers.length > 0)

/-- JS `String.prototype.replace` with a (non-empty) string pattern:
replace the first occurrence of `pat` by `repl`, or return the string
unchanged when `pat` does not occur.  Over `List Char`. -/
def jsReplaceOnce (pat repl : List Char) : List Char → List Char
  | [] => []
  | c :: rest =>
    if pat.isPrefixOf (c :: rest) then repl ++ (c :: rest).drop pat.length
    else c :: jsReplaceOnce pat repl rest

/-- The pattern pushed by `ignore(path)`:
`('!./' + path).replace('././', './')`. -/
def ignorePattern (path : String) : String :=
  String.mk (jsReplaceOnce "././".data "./".data ("!./" ++ path).data)

/-- `ignore(path)`: push the exclusion pattern onto `watchers` and return
`this`. -/
def ignore (t : Task π ρ) (path : String) : Task π ρ :=
  { t with watchers := t.watchers ++ [ignorePattern path] }

/-- `recordStep(message)`: push the message onto `steps`. -/
def recordStep (t : Task π ρ) (message : String) : Task π ρ :=
  { t with steps := t.steps ++ [message] }

/-- `summary()`: `this.steps.map((step, index) => ++index + '. ' + step)`
joined with newlines (the template literal with pre-incremented index). -/
def summary (t : Task π ρ) : String :=
  String.intercalate "\n"
    (t.steps.enum.map (fun p => toString (p.1 + 1) ++ ". " ++ p.2))

/-- `log(message)`: a truthy message goes to `Elixir.log.status`;
otherwise `Elixir.log.task(this)` runs as long as the whole suite is not
being triggered (`!Elixir.isRunningAllTasks`).  Returns the events
emitted. -/
def log (t : Task π ρ) (message : Option String) (env : Env π) :
    List (Event π) :=
  if jsTruthy message then [Event.logStatus (message.getD "")]
  else if env.isRunningAllTasks then []
  else [Event.logTask t.name t.summary]

/-- `run()`: invoke the deferred definition with `Elixir.Plugins` and
`Elixir.config`, set `isComplete`, call `log()`, and return the
definition's result.  The base class has no `registerWatchers` method, so
the guarded `this.registerWatchers && this.registerWatchers()` is a no-op.
A task whose `definition` was never assigned makes `run` throw a
`TypeError` in JS, embedded as `none`. -/
def run (t : Task π ρ) (env : Env π) :
    Option (ρ × Task π ρ × List (Event π)) :=
  match t.definition with
  | none => none
  | some d =>
    let result := d env.plugins env.config
    let t1 := { t with isComplete := true }
    some (result, t1, Event.defInvoked env.plugins env.config :: t1.log none env)

/-- The pipeline objects the step helpers can return: the pass-through
`map(function () {})`, `Plugins.sourcemaps.write('.')`,
`Plugins.autoprefixer(options)`, or `minifier(this.output)`. -/
inductive Transform where
  | passThrough
  | sourcemapsWrite (dest : String)
  | autoprefixer (options : String)
  | minifier (output : Option Output)
deriving Repr, DecidableEq

/-- `writeSourceMaps()`: pass-through when `config.sourcemaps` is falsy;
otherwise record the step and delegate to `Plugins.sourcemaps.write('.')`. -/
def writeSourceMaps (t : Task π ρ) (env : Env π) : Transform × Task π ρ :=
  if !env.config.sourcemaps then (Transform.passThrough, t)
  else (Transform.sourcemapsWrite ".", t.recordStep "Writing Source Maps")

/-- `autoPrefix()`: pass-through when `config.css.autoprefix.enabled` is
falsy; otherwise record the step and delegate to
`Plugins.autoprefixer(config.css.autoprefix.options)`. -/
def autoPrefix (t : Task π ρ) (env : Env π) : Transform × Task π ρ :=
  if !env.config.cssAutoprefixEnabled then (Transform.passThrough, t)
  else (Transform.autoprefixer env.config.cssAutoprefixOptions,
        t.recordStep "Autoprefixing CSS")

/-- `minify()`: pass-through when `Elixir.inProduction` is falsy;
otherwise record the step and delegate to `minifier(this.output)`. -/
def minify (t : Task π ρ) (env : Env π) : Transform × Task π ρ :=
  if !env.inProduction then (Transform.passThrough, t)
  else (Transform.minifier t.output, t.recordStep "Applying Minification")

/-- `toGulp()`: if a gulp task with this name already exists, exit early;
otherwise register one (the gulp registry is embedded as the list of
registered task names — the registered closure is determined by the
captured name, its behaviour is `gulpClosure` below). -/
def toGulp (t : Task π ρ) (gulpTasks : List String) : List String :=
  if gulpTasks.contains t.name then gulpTasks else gulpTasks ++ [t.name]

end Task

/-- underscore's `_.intersection(xs, ys)`: the values of `xs` also present
in `ys`, deduplicated (an external library function; only the truthiness
of its length is consumed). -/
def uIntersection (xs ys : List String) : List String :=
  (xs.filter (fun x => ys.contains x)).dedup

/-- `shouldRunAllTasksWithName(name)`:
`_.intersection(gutils.env._, [name, 'watch', 'tdd']).length` as a
boolean. -/
def shouldRunAllTasksWithName (name : String) (cliArgs : List String) : Bool :=
  (uIntersection cliArgs [name, "watch", "tdd"]).length != 0

/-- Modelled from the spec: `Elixir.tasks.byName(name)` is not under
`src/`; the spec describes the registry as "supporting 'run all with a
given name' ... lookups", so it returns all registered tasks with the
given name, in registry order. -/
def byName {π ρ : Type} (tasks : List (Task π ρ)) (name : String) :
    List (Task π ρ) :=
  tasks.filter (fun t => t.name == name)

/-- Modelled from the spec: `Elixir.tasks.findIncompleteByName(name)` is
not under `src/`; the spec describes the registry as supporting "find
first incomplete with a given name" lookups, so it returns the registered
tasks with the given name that are not complete, in registry order. -/
def findIncompleteByName {π ρ : Type} (tasks : List (Task π ρ))
    (name : String) : List (Task π ρ) :=
  tasks.filter (fun t => t.name == name && !t.isComplete)

/-- The closure `toGulp` registers with gulp, returning the list of tasks
it runs: every task with the captured name when
`shouldRunAllTasksWithName(name)`, otherwise just
`Elixir.tasks.findIncompleteByName(name)[0]` — whose absence makes the JS
closure throw (`none`). -/
def gulpClosure {π ρ : Type} (name : String) (cliArgs : List String)
    (tasks : List (Task π ρ)) : Option (List (Task π ρ)) :=
  if shouldRunAllTasksWithName name cliArgs then some (byName tasks name)
  else
    match findIncompleteByName tasks name with
    | [] => none
    | t :: _ => some [t]

/-- 1-based line numbering, written from the spec's words for `summary`:
each step on its own line, prefixed by its 1-based index and `. `, in
recorded order. -/
def specNumberedLines : Nat → List String → List String
  | _, [] => []
  | k, s :: rest => (toString k ++ ". " ++ s) :: specNumberedLines (k + 1) rest

/-- Recognize a definition-invocation event. -/
def isDefInvoked {π : Type} : Event π → Bool
  | Event.defInvoked _ _ => true
  | _ => false

/-- How many times a trace invokes the deferred definition. -/
def countDefCalls {π : Type} (tr : List (Event π)) : Nat :=
  (tr.filter isDefInvoked).length

/-- Recognize an `Elixir.log.task(this)` event. -/
def isLogTask {π : Type} : Event π → Bool
  | Event.logTask _ _ => true
  | _ => false

/-- How many times a trace logs a task summary. -/
def countLogTaskEvents {π : Type} (tr : List (Event π)) : Nat :=
  (tr.filter isLogTask).length

/-- The event trace of a (possibly failed) `run`. -/
def runTrace {π ρ : Type} (r : Option (ρ × Task π ρ × List (Event π))) :
    List (Event π) :=
  match r with
  | some x => x.2.2
  | none => []

/-- A concrete config for witnesses. -/
def exConfig : Config :=
  { sourcemaps := false, cssAutoprefixEnabled := false, cssAutoprefixOptions := "" }

/-- A concrete environment in which the whole suite is being run
(`gulp` with no specific task argument sets `isRunningAllTasks`). -/
def exEnvAll : Env Unit :=
  { plugins := (), config := exConfig, inProduction := false,
    isRunningAllTasks := true, cliArgs := [] }

/-- A concrete environment running a single task. -/
def exEnvOne : Env Unit :=
  { plugins := (), config := exConfig, inProduction := false,
    isRunningAllTasks := false, cliArgs := ["styles"] }

/-- A concrete task with a definition and one recorded step. -/
def exTask : Task Unit Nat :=
  { name := "styles", watchers := [], isComplete := false,
    steps := ["Autoprefixing CSS"], category := none, paths := none,
    src := none, output := none, definition := some (fun _ _ => 7) }

/-- A concrete task without a definition (for the `ignore` facts). -/
def exBareTask : Task Unit Unit :=
  { name := "scripts", watchers := [], isComplete := false, steps := [],
    category := none, paths := none, src := none, output := none,
    definition := none }

theorem enumFrom_map_numbered (l : List String) : ∀ n : Nat,
    (List.enumFrom n l).map (fun p => toString (p.1 + 1) ++ ". " ++ p.2) =
      specNumberedLines (n + 1) l := by
  induction l with
  | nil => intro n; rfl
  | cons s rest ih => intro n; simp [List.enumFrom, specNumberedLines, ih]

/-- C4: constructing a Task with a description function appends it exactly
once to the `Elixir.tasks` registry, already at construction time with
`isComplete` still false (no run has occurred); a bare `describe` call on
an existing task likewise appends exactly once (via `register`), and a
construction without a description registers nothing. -/
theorem constructor_registers_once {π ρ : Type} (nm : String)
    (d : π → Config → ρ) (ps : Option Paths) (reg : List (Task π ρ))
    (t : Task π ρ) :
    (Task.mkTask nm (some d) ps reg).2.1 =
        reg ++ [(Task.mkTask nm (some d) ps reg).1]
      ∧ (Task.mkTask nm (some d) ps reg).1.isComplete = false
      ∧ (Task.mkTask nm none ps reg).2.1 = reg
      ∧ (t.describe d reg).2 = reg ++ [(t.describe d reg).1]
      ∧ (t.register reg).2 = reg ++ [t] :=
  ⟨rfl, rfl, rfl, rfl, rfl⟩

/-- C5: each toggle-guarded pipeline helper consults the process-wide
config: with its toggle falsy it returns the pass-through transform and
records no step; with its toggle truthy it records its step
(`Writing Source Maps` / `Autoprefixing CSS` / `Applying Minification`)
and delegates to the external plugin. -/
theorem toggle_helpers_consult_config {π ρ : Type} (env : Env π)
    (t : Task π ρ) :
    (t.writeSourceMaps env).1 =
        (if env.config.sourcemaps then Task.Transform.sourcemapsWrite "."
         else Task.Transform.passThrough)
      ∧ (t.writeSourceMaps env).2.steps =
          t.steps ++ (if env.config.sourcemaps then ["Writing Source Maps"] else [])
      ∧ (t.autoPrefix env).1 =
          (if env.config.cssAutoprefixEnabled then
            Task.Transform.autoprefixer env.config.cssAutoprefixOptions
           else Task.Transform.passThrough)
      ∧ (t.autoPrefix env).2.steps =
          t.steps ++ (if env.config.cssAutoprefixEnabled then ["Autoprefixing CSS"] else [])
      ∧ (t.minify env).1 =
          (if env.inProduction then Task.Transform.minifier t.output
           else Task.Transform.passThrough)
      ∧ (t.minify env).2.steps =
          t.steps ++ (if env.inProduction then ["Applying Minification"] else []) := by
  rcases env with ⟨p, ⟨sm, ape, apo⟩, prod, ira, args⟩
  cases sm <;> cases ape <;> cases prod <;>
    simp [Task.writeSourceMaps, Task.autoPrefix, Task.minify, Task.recordStep]

/-- C6: after `watch(regex, category)` with a falsy category (absent, null
or empty), the task's `category` field is `'default'`; with a truthy
category it is that value. -/
theorem watch_category_defaults {π ρ : Type} (t : Task π ρ)
    (r c : Option String) :
    (jsTruthy c = false → (t.watch r c).category = some "default")
      ∧ (jsTruthy c = true → (t.watch r c).category = c) := by
  constructor
  · intro h; simp [Task.watch, h]
  · intro h
    cases c with
    | none => simp [jsTruthy] at h
    | some s => simp [Task.watch, h]

/-- C6 witness: concrete falsy (`none`) and truthy (`some "styles"`)
categories on a concrete task. -/
theorem watch_category_defaults_witness :
    ((exTask.watch none none).category = some "default")
      ∧ ((exTask.watch none (some "styles")).category = some "styles") :=
  ⟨(watch_category_defaults exTask none none).1 rfl,
   (watch_category_defaults exTask none (some "styles")).2 rfl⟩

/-- C7: `summary()` renders the recorded steps in recorded order, each
line prefixed by its 1-based index and `. `, joined by newlines (the pure
read leaves `steps` untouched: the embedding of `summary` does not produce
an updated task). -/
theorem summary_numbers_steps_in_order {π ρ : Type} (t : Task π ρ) :
    t.summary = String.intercalate "\n" (specNumberedLines 1 t.steps) := by
  unfold Task.summary
  rw [show t.steps.enum = List.enumFrom 0 t.steps from rfl,
    enumFrom_map_numbered t.steps 0]

/-- C8: frame conditions of the three mutators: `watch` leaves every field
but `watchers` and `category` unchanged; `ignore` appends exactly one
pattern to `watchers` and changes nothing else; `recordStep` appends
exactly one entry to `steps` and changes nothing else. -/
theorem setup_calls_frame {π ρ : Type} (t : Task π ρ) (r c : Option String)
    (p m : String) :
    ((t.watch r c).name = t.name ∧ (t.watch r c).isComplete = t.isComplete
      ∧ (t.watch r c).steps = t.steps ∧ (t.watch r c).paths = t.paths
      ∧ (t.watch r c).src = t.src ∧ (t.watch r c).output = t.output
      ∧ (t.watch r c).definition = t.definition)
    ∧ ((t.ignore p).watchers = t.watchers ++ [Task.ignorePattern p]
      ∧ (t.ignore p).name = t.name ∧ (t.ignore p).isComplete = t.isComplete
      ∧ (t.ignore p).steps = t.steps ∧ (t.ignore p).category = t.category
      ∧ (t.ignore p).paths = t.paths ∧ (t.ignore p).src = t.src
      ∧ (t.ignore p).output = t.output ∧ (t.ignore p).definition = t.definition)
    ∧ ((t.recordStep m).steps = t.steps ++ [m]
      ∧ (t.recordStep m).name = t.name ∧ (t.recordStep m).watchers = t.watchers
      ∧ (t.recordStep m).isComplete = t.isComplete
      ∧ (t.recordStep m).category = t.category
      ∧ (t.recordStep m).paths = t.paths ∧ (t.recordStep m).src = t.src
      ∧ (t.recordStep m).output = t.output
      ∧ (t.recordStep m).definition = t.definition) := by
  refine ⟨?_, ?_, ?_⟩
  · cases h : jsTruthy r <;> simp [Task.watch, h]
  · exact ⟨rfl, rfl, rfl, rfl, rfl, rfl, rfl, rfl, rfl⟩
  · exact ⟨rfl, rfl, rfl, rfl, rfl, rfl, rfl, rfl, rfl⟩

/-- C1: `run()` invokes the deferred definition exactly once per call,
passing `Elixir.Plugins` and `Elixir.config`, sets `isComplete`, and
returns the definition's result; construction (and therefore the
`describe`/`register` calls it makes, which only update state and emit no
events) never invokes the definition. -/
theorem run_invokes_definition_once {π ρ : Type} (env : Env π)
    (t : Task π ρ) (d : π → Config → ρ) (h : t.definition = some d) :
    ∃ tr : List (Event π),
      t.run env = some (d env.plugins env.config,
        { t with isComplete := true }, tr)
      ∧ countDefCalls tr = 1
      ∧ Event.defInvoked env.plugins env.config ∈ tr
      ∧ ∀ (nm : String) (descr : Option (π → Config → ρ)) (ps : Option Paths)
          (reg : List (Task π ρ)),
          countDefCalls (Task.mkTask nm descr ps reg).2.2 = 0 := by
  refine ⟨Event.defInvoked env.plugins env.config ::
      Task.log { t with isComplete := true } none env, ?_, ?_, ?_, ?_⟩
  · simp [Task.run, h]
  · cases h2 : env.isRunningAllTasks <;>
      simp [countDefCalls, Task.log, jsTruthy, isDefInvoked, h2]
  · exact List.mem_cons_self _ _
  · intro nm descr ps reg
    cases descr <;> rfl

/-- C1 witness: a concrete task with definition `fun _ _ => 7` run in a
concrete environment. -/
theorem run_invokes_definition_once_witness :
    ∃ tr : List (Event Unit),
      exTask.run exEnvOne = some (7, { exTask with isComplete := true }, tr)
      ∧ countDefCalls tr = 1
      ∧ Event.defInvoked exEnvOne.plugins exEnvOne.config ∈ tr
      ∧ ∀ (nm : String) (descr : Option (Unit → Config → Nat))
          (ps : Option Paths) (reg : List (Task Unit Nat)),
          countDefCalls (Task.mkTask nm descr ps reg).2.2 = 0 :=
  run_invokes_definition_once exEnvOne exTask (fun _ _ => 7) rfl

/-- C2 counterexample: when the whole suite is being run
(`Elixir.isRunningAllTasks`), `run()` completes but logs no task summary
at all, so "every invocation of run() logs a summary" fails. -/
theorem run_log_skipped_when_running_all_cex :
    countLogTaskEvents (runTrace (exTask.run exEnvAll)) = 0
      ∧ (exTask.run exEnvAll).isSome = true :=
  ⟨rfl, rfl⟩

/-- C2 amended: `run()` logs the completed task's step summary exactly
when `Elixir.isRunningAllTasks` is falsy; when the entire suite is being
triggered, the per-task summary log is skipped. -/
theorem run_logs_summary_iff_not_running_all {π ρ : Type} (env : Env π)
    (t : Task π ρ) (d : π → Config → ρ) (h : t.definition = some d) :
    ∃ tr : List (Event π),
      t.run env = some (d env.plugins env.config,
        { t with isComplete := true }, tr)
      ∧ (env.isRunningAllTasks = false →
          Event.logTask t.name
            (Task.summary { t with isComplete := true }) ∈ tr)
      ∧ (env.isRunningAllTasks = true → countLogTaskEvents tr = 0) := by
  refine ⟨Event.defInvoked env.plugins env.config ::
      Task.log { t with isComplete := true } none env, ?_, ?_, ?_⟩
  · simp [Task.run, h]
  · intro h2
    simp [Task.log, jsTruthy, h2]
  · intro h2
    simp [countLogTaskEvents, Task.log, jsTruthy, isLogTask, h2]

/-- C2 amended witness: the concrete task run in a single-task
environment logs its summary. -/
theorem run_logs_summary_iff_not_running_all_witness :
    ∃ tr : List (Event Unit),
      exTask.run exEnvOne = some (7, { exTask with isComplete := true }, tr)
      ∧ (exEnvOne.isRunningAllTasks = false →
          Event.logTask exTask.name
            (Task.summary { exTask with isComplete := true }) ∈ tr)
      ∧ (exEnvOne.isRunningAllTasks = true → countLogTaskEvents tr = 0) :=
  run_logs_summary_iff_not_running_all exEnvOne exTask (fun _ _ => 7) rfl

/-- C3: the registered gulp closure runs every registered task with the
captured name exactly when the command-line task arguments contain that
name, `watch` or `tdd`; otherwise it runs only the first incomplete
registered task with that name. -/
theorem gulpClosure_selects_tasks {π ρ : Type} (name : String)
    (cliArgs : List String) (tasks : List (Task π ρ)) :
    (shouldRunAllTasksWithName name cliArgs = true ↔
        ∃ a ∈ cliArgs, a = name ∨ a = "watch" ∨ a = "tdd")
      ∧ (shouldRunAllTasksWithName name cliArgs = true →
          gulpClosure name cliArgs tasks = some (byName tasks name))
      ∧ (shouldRunAllTasksWithName name cliArgs = false →
          ∀ (t : Task π ρ) (rest : List (Task π ρ)),
            findIncompleteByName tasks name = t :: rest →
            gulpClosure name cliArgs tasks = some [t]) := by
  refine ⟨?_, ?_, ?_⟩
  · simp [shouldRunAllTasksWithName, uIntersection, List.dedup_eq_nil,
      List.filter_eq_nil_iff, List.length_eq_zero]
    constructor
    · rintro ⟨x, hx, hor⟩
      exact ⟨x, hx, by tauto⟩
    · rintro ⟨a, ha, hor⟩
      exact ⟨a, ha, by tauto⟩
  · intro h
    simp [gulpClosure, h]
  · intro h t rest heq
    simp [gulpClosure, h, heq]

/-- C3 witness: with `styles` among the CLI arguments the closure runs all
`styles` tasks; with no relevant CLI argument it runs the first incomplete
one. -/
theorem gulpClosure_selects_tasks_witness :
    gulpClosure "styles" ["styles"] [exTask] = some (byName [exTask] "styles")
      ∧ gulpClosure "styles" [] [exTask] = some [exTask] :=
  ⟨(gulpClosure_selects_tasks "styles" ["styles"] [exTask]).2.1 rfl,
   (gulpClosure_selects_tasks "styles" [] [exTask]).2.2 rfl exTask [] rfl⟩

theorem toGulp_preserves_count_le {π ρ : Type} (u : Task π ρ)
    (g : List String) (hg : ∀ n, g.count n ≤ 1) :
    ∀ n, (u.toGulp g).count n ≤ 1 := by
  intro n
  unfold Task.toGulp
  by_cases hmem : u.name ∈ g
  · simp [hmem]
    exact hg n
  · have hcon : g.contains u.name = false := by
      simp [hmem]
    simp only [hcon, Bool.false_eq_true, if_false]
    rw [List.count_append]
    by_cases hn : n = u.name
    · subst hn
      have h0 : List.count u.name g = 0 := List.count_eq_zero.mpr hmem
      have h1 : List.count u.name [u.name] = 1 := by simp
      rw [h0, h1]
    · have h1 : List.count n [u.name] = 0 :=
        List.count_eq_zero.mpr (by simp [hn])
      rw [h1]
      simpa using hg n

theorem foldl_toGulp_count_le {π ρ : Type} :
    ∀ (ts : List (Task π ρ)) (g : List String), (∀ n, g.count n ≤ 1) →
      ∀ n, (ts.foldl (fun acc u => u.toGulp acc) g).count n ≤ 1 := by
  intro ts
  induction ts with
  | nil => intro g hg; exact hg
  | cons u rest ih => intro g hg; exact ih _ (toGulp_preserves_count_le u g hg)

/-- C9: `toGulp` is idempotent with respect to the gulp registry: a name
already present is left alone, so any sequence of `toGulp` calls starting
from a registry with at most one entry per name keeps at most one gulp
task per name. -/
theorem toGulp_registers_at_most_once {π ρ : Type} (t : Task π ρ)
    (g : List String) (ts : List (Task π ρ)) :
    (t.name ∈ g → t.toGulp g = g)
      ∧ ((∀ n, g.count n ≤ 1) →
          ∀ n, (ts.foldl (fun acc u => u.toGulp acc) g).count n ≤ 1) := by
  constructor
  · intro hmem
    simp [Task.toGulp, hmem]
  · intro hg
    exact foldl_toGulp_count_le ts g hg

/-- C9 witness: registering the same concrete task twice from an empty
gulp registry leaves exactly one entry per name. -/
theorem toGulp_registers_at_most_once_witness :
    exTask.toGulp ["styles"] = ["styles"]
      ∧ ∀ n, (([exTask, exTask].foldl
          (fun acc u => u.toGulp acc) []).count n ≤ 1) :=
  ⟨(toGulp_registers_at_most_once exTask ["styles"] [exTask, exTask]).1
      (by decide),
   (toGulp_registers_at_most_once exTask [] [exTask, exTask]).2
      (fun n => by simp)⟩

/-- The pattern the claim describes for `ignore(p)`: `'!./' + p` with a
single *leading* `'././'` collapsed to `'./'`.  Since `'!./' + p` starts
with `'!'`, the collapse applies exactly when `p` itself begins with
`'./'`. -/
def claimIgnorePattern (p : String) : String :=
  if "./".data.isPrefixOf p.data then "!" ++ p else "!./" ++ p

/-- C10 counterexample: for `p = "a././b"` the code collapses the first
`'././'` occurrence *anywhere* (JS `replace` with a string pattern),
producing `'!./a./b'`, not the claim's `'!./a././b'`. -/
theorem ignore_leading_collapse_cex :
    (exBareTask.ignore "a././b").watchers ≠ [claimIgnorePattern "a././b"] := by
  decide

theorem isPrefixOf_false_of_head_ne {a b : Char} (as bs : List Char)
    (h : (a == b) = false) :
    List.isPrefixOf (a :: as) (b :: bs) = false := by
  simp [List.isPrefixOf, h]

theorem jsReplaceOnce_cons_of_no_match (pat repl : List Char) (c : Char)
    (xs : List Char) (h : pat.isPrefixOf (c :: xs) = false) :
    Task.jsReplaceOnce pat repl (c :: xs) =
      c :: Task.jsReplaceOnce pat repl xs := by
  simp [Task.jsReplaceOnce, h]

theorem jsReplaceOnce_of_no_occurrence (pat repl : List Char) :
    ∀ s : List Char, ¬ pat <:+: s → Task.jsReplaceOnce pat repl s = s := by
  intro s
  induction s with
  | nil => intro _; rfl
  | cons c rest ih =>
    intro hno
    have hpre : pat.isPrefixOf (c :: rest) = false := by
      cases hb : pat.isPrefixOf (c :: rest) with
      | false => rfl
      | true =>
        exact absurd (List.IsPrefix.isInfix
          (List.isPrefixOf_iff_prefix.mp hb)) hno
    rw [jsReplaceOnce_cons_of_no_match pat repl c rest hpre]
    have hrest : ¬ pat <:+: rest := fun hx => hno (List.infix_cons hx)
    rw [ih hrest]

/-- C10 amended: `ignore(p)` appends exactly one pattern, obtained from
`'!./' + p` by collapsing the *first occurrence anywhere* of `'././'` to
`'./'` (JS `replace` semantics): when `p` begins with `'./'` this yields
`'!' + p`, and when `'!./' + p` contains no `'././'` it is unchanged; the
pattern always starts with `'!'`, and `hasWatchers()` is true
afterwards. -/
theorem ignore_appends_first_collapse {π ρ : Type} (t : Task π ρ)
    (p : String) :
    (t.ignore p).watchers = t.watchers ++ [Task.ignorePattern p]
      ∧ (t.ignore p).hasWatchers = true
      ∧ (Task.ignorePattern p).data.head? = some '!'
      ∧ (∀ rest : List Char, p.data = '.' :: '/' :: rest →
          Task.ignorePattern p = String.mk ('!' :: '.' :: '/' :: rest))
      ∧ (¬ ("././".data <:+: ("!./" ++ p).data) →
          Task.ignorePattern p = "!./" ++ p) := by
  have hdata : ("!./" ++ p).data = '!' :: '.' :: '/' :: p.data := by
    simp [String.data_append]
  have hpat : "././".data = ['.', '/', '.', '/'] := rfl
  have hrepl : "./".data = ['.', '/'] := rfl
  refine ⟨rfl, ?_, ?_, ?_, ?_⟩
  · simp [Task.hasWatchers, Task.ignore]
  · show (String.mk (Task.jsReplaceOnce "././".data "./".data
      ("!./" ++ p).data)).data.head? = some '!'
    rw [hdata, hpat,
      jsReplaceOnce_cons_of_no_match ['.', '/', '.', '/'] "./".data '!'
        ('.' :: '/' :: p.data) (isPrefixOf_false_of_head_ne _ _ rfl)]
    rfl
  · intro rest hrest
    show String.mk (Task.jsReplaceOnce "././".data "./".data
      ("!./" ++ p).data) = _
    have hfull : ("!./" ++ p).data = '!' :: '.' :: '/' :: '.' :: '/' :: rest := by
      rw [hdata, hrest]
    rw [hfull, hpat, hrepl,
      jsReplaceOnce_cons_of_no_match ['.', '/', '.', '/'] ['.', '/'] '!'
        ('.' :: '/' :: '.' :: '/' :: rest)
        (isPrefixOf_false_of_head_ne _ _ rfl)]
    have htrue : List.isPrefixOf ['.', '/', '.', '/']
        ('.' :: '/' :: '.' :: '/' :: rest) = true := by
      simp [List.isPrefixOf]
    simp [Task.jsReplaceOnce, htrue]
  · intro hno
    show String.mk (Task.jsReplaceOnce "././".data "./".data
      ("!./" ++ p).data) = _
    rw [jsReplaceOnce_of_no_occurrence _ _ _ hno]

/-- C10 amended witness: `ignore('./foo')` produces `'!./foo'` (the
leading collapse case), on a concrete task that then has watchers. -/
theorem ignore_appends_first_collapse_witness :
    Task.ignorePattern "./foo" = String.mk ('!' :: '.' :: '/' :: "foo".data)
      ∧ (exBareTask.ignore "./foo").hasWatchers = true :=
  ⟨(ignore_appends_first_collapse exBareTask "./foo").2.2.2.1 "foo".data
      (by decide),
   (ignore_appends_first_collapse exBareTask "./foo").2.1⟩

end Elixir
